import Mathlib

/-!
Shallow embedding of the request middleware and group handlers of the
coder service: the organization and organization-member parameter
resolvers (coderd/httpmw organizationparam), the group parameter
resolver (coderd/httpmw/groupparam.go) and the enterprise group
handlers (patchGroup, deleteGroup, group, and the sdk conversion
helpers).  Store operations and helpers whose source is not provided
are modelled from the specification and carry a doc comment saying so.
-/

/-- Universally unique identifiers, modelled as naturals; `Uuid.nil` is
Go's `uuid.Nil`, the all-zero UUID. -/
abbrev Uuid := Nat

def Uuid.nil : Uuid := 0

/-- Go route-parameter strings.  A value is either the canonical string
form of a UUID (what `uuid.UUID.String()` prints) or a literal string
that does not parse as a UUID (the alias "default", a name, ...).
Go's `uuid.Parse` succeeds exactly on uuid-form strings and round-trips
with `String()`; string equality distinguishes the two shapes. -/
inductive StrVal where
  | lit (s : String)
  | uuidStr (u : Uuid)
deriving DecidableEq

/-- Go `uuid.Parse`, on the `StrVal` model of strings. -/
def uuidParse : StrVal → Option Uuid
  | .lit _ => none
  | .uuidStr u => some u

deriving instance DecidableEq for Except

namespace codersdk

/-- codersdk.DefaultOrganization, the reserved organization alias. -/
def DefaultOrganization : String := "default"

/-- codersdk.Role. -/
structure Role where
  name : String
  displayName : String
deriving DecidableEq

/-- codersdk.User, the response shape built by convertUser. -/
structure User where
  id : Uuid
  email : String
  createdAt : Nat
  lastSeenAt : Nat
  username : String
  status : String
  organizationIDs : List Uuid
  roles : List Role
  avatarURL : String
deriving DecidableEq

/-- codersdk.Group, the response shape built by convertGroup. -/
structure Group where
  id : Uuid
  name : String
  organizationID : Uuid
  members : List User
deriving DecidableEq

/-- codersdk.PatchGroupRequest: optional new name ("" means no rename)
and the raw add/remove user-id strings. -/
structure PatchGroupRequest where
  name : String
  addUsers : List StrVal
  removeUsers : List StrVal
deriving DecidableEq

end codersdk

namespace database

/-- Modelled from the spec: database.AllUsersGroup, the reserved,
system-managed "all users" group name (spec section 3). -/
def AllUsersGroup : String := "Everyone"

/-- database.Organization (claim-relevant columns). -/
structure Organization where
  id : Uuid
  name : String
  isDefault : Bool
deriving DecidableEq

/-- database.Group (claim-relevant columns). -/
structure Group where
  id : Uuid
  name : String
  organizationID : Uuid
deriving DecidableEq

/-- database.OrganizationMember: the membership row, keyed by
(organization id, user id) with no id of its own. -/
structure OrganizationMember where
  userID : Uuid
  organizationID : Uuid
  roles : List String
deriving DecidableEq

/-- database.User (claim-relevant columns). -/
structure User where
  id : Uuid
  email : String
  username : String
  avatarURL : String
  status : String
  rbacRoles : List String
  createdAt : Nat
  lastSeenAt : Nat
deriving DecidableEq

/-- Error signalling of the store: sql.ErrNoRows, a uniqueness
violation, or any other (internal) failure — the three classes the
handlers discriminate. -/
inductive DbError where
  | noRows
  | uniqueViolation
  | other
deriving DecidableEq

/-- Read queries of the store.  Used both to model internal failures
(`Store.faults` lists the queries that currently fail) and, for the
organization resolver, to record which lookup a resolution attempted. -/
inductive Query where
  | qDefaultOrg
  | qOrgByID (id : Uuid)
  | qOrgByName (name : String)
  | qGroupByID (id : Uuid)
  | qGroupByOrgAndName (orgID : Uuid) (name : String)
  | qOrgMemberByUserID (orgID userID : Uuid)
  | qOrgMembers (orgID userID : Uuid)
  | qGroupMembers (groupID : Uuid)
  | qUserByID (id : Uuid)
  | qUserByUsername (name : String)
deriving DecidableEq

/-- Modelled from the spec: the persistent store (an out-of-scope
collaborator consumed through query/command operations, spec sections
1 and 6), as explicit data.  `groupMembers` is the list of
(group id, user id) membership rows; `faults` is the set of read
queries that currently fail with an internal (non-"no rows") error. -/
structure Store where
  orgs : List Organization
  groups : List Group
  members : List OrganizationMember
  users : List User
  groupMembers : List (Uuid × Uuid)
  faults : List Query
deriving DecidableEq

/-- Modelled from the spec: get-default-organization — the singleton
default organization (spec sections 3 and 6). -/
def GetDefaultOrganization (s : Store) : Except DbError Organization :=
  if s.faults.contains .qDefaultOrg then .error .other
  else
    match s.orgs.find? (fun o => o.isDefault) with
    | some o => .ok o
    | none => .error .noRows

/-- Modelled from the spec: get-organization-by-id. -/
def GetOrganizationByID (s : Store) (id : Uuid) : Except DbError Organization :=
  if s.faults.contains (.qOrgByID id) then .error .other
  else
    match s.orgs.find? (fun o => o.id == id) with
    | some o => .ok o
    | none => .error .noRows

/-- Modelled from the spec: get-organization-by-name. -/
def GetOrganizationByName (s : Store) (name : String) : Except DbError Organization :=
  if s.faults.contains (.qOrgByName name) then .error .other
  else
    match s.orgs.find? (fun o => o.name == name) with
    | some o => .ok o
    | none => .error .noRows

/-- Modelled from the spec: get-group-by-id. -/
def GetGroupByID (s : Store) (id : Uuid) : Except DbError Group :=
  if s.faults.contains (.qGroupByID id) then .error .other
  else
    match s.groups.find? (fun g => g.id == id) with
    | some g => .ok g
    | none => .error .noRows

/-- Modelled from the spec: lookup of a group by owning organization
and name (group names are unique within an organization, spec
section 3). -/
def GetGroupByOrgAndName (s : Store) (orgID : Uuid) (name : String) :
    Except DbError Group :=
  if s.faults.contains (.qGroupByOrgAndName orgID name) then .error .other
  else
    match s.groups.find? (fun g => g.organizationID == orgID && g.name == name) with
    | some g => .ok g
    | none => .error .noRows

/-- Modelled from the spec: get-organization-member by organization and
user id; the row's existence is the membership fact (spec section 3). -/
def GetOrganizationMemberByUserID (s : Store) (orgID userID : Uuid) :
    Except DbError OrganizationMember :=
  if s.faults.contains (.qOrgMemberByUserID orgID userID) then .error .other
  else
    match s.members.find? (fun m => m.organizationID == orgID && m.userID == userID) with
    | some m => .ok m
    | none => .error .noRows

/-- Modelled from the spec: the OrganizationMembers list query filtered
by organization id and user id. -/
def OrganizationMembers (s : Store) (orgID userID : Uuid) :
    Except DbError (List OrganizationMember) :=
  if s.faults.contains (.qOrgMembers orgID userID) then .error .other
  else .ok (s.members.filter (fun m => m.organizationID == orgID && m.userID == userID))

/-- Modelled from the spec: database.ExpectOne — at most one row is
expected; zero rows is a "no rows" condition and more than one an
internal-consistency error (spec section 4.4 step 2). -/
def ExpectOne {α : Type} (res : Except DbError (List α)) : Except DbError α :=
  match res with
  | .error e => .error e
  | .ok [] => .error .noRows
  | .ok [x] => .ok x
  | .ok (_ :: _ :: _) => .error .other

/-- Modelled from the spec: get-group-members — the roster is derived
from membership rows at read time (spec section 3). -/
def GetGroupMembers (s : Store) (groupID : Uuid) : Except DbError (List User) :=
  if s.faults.contains (.qGroupMembers groupID) then .error .other
  else
    .ok ((s.groupMembers.filter (fun p => p.1 == groupID)).filterMap
      (fun p => s.users.find? (fun u => u.id == p.2)))

/-- Modelled from the spec: update-group-name.  Renames the group with
the given id; "no rows" if it does not exist, and a uniqueness
violation if another group of the same organization already holds the
target name (names are unique within an organization, spec section 3). -/
def UpdateGroupByID (s : Store) (id : Uuid) (name : String) :
    Except DbError (Store × Group) :=
  match s.groups.find? (fun g => g.id == id) with
  | none => .error .noRows
  | some g =>
    if s.groups.any (fun g' => g'.organizationID == g.organizationID &&
        g'.name == name && g'.id != id) then
      .error .uniqueViolation
    else
      let g' : Group := { g with name := name }
      .ok ({ s with groups := s.groups.map (fun h => if h.id == id then g' else h) }, g')

/-- Modelled from the spec: insert-group-member.  The storage-layer
uniqueness constraint on (group, user) is the backstop against adding
the same member twice (spec section 5). -/
def InsertGroupMember (s : Store) (groupID userID : Uuid) : Except DbError Store :=
  if s.groupMembers.contains (groupID, userID) then .error .uniqueViolation
  else .ok { s with groupMembers := s.groupMembers ++ [(groupID, userID)] }

/-- Modelled from the spec: delete-group-member, keyed by user id as in
the handler's call.  A missing-row condition is signalled as "no rows"
(spec section 4.6 step 3). -/
def DeleteGroupMember (s : Store) (userID : Uuid) : Except DbError Store :=
  if s.groupMembers.any (fun p => p.2 == userID) then
    .ok { s with groupMembers := s.groupMembers.filter (fun p => p.2 != userID) }
  else .error .noRows

/-- Modelled from the spec: delete-group-by-id. -/
def DeleteGroupByID (s : Store) (id : Uuid) : Except DbError Store :=
  if s.groups.any (fun g => g.id == id) then
    .ok { s with groups := s.groups.filter (fun g => g.id != id) }
  else .error .noRows

/-- Modelled from the spec: database.InTx — the all-or-nothing atomic
section.  The body runs against the store; on any error the store
reverts to its pre-transaction state (spec section 4.6 step 3). -/
def InTx {α : Type} (s : Store) (body : Store → Except DbError (Store × α)) :
    Except DbError α × Store :=
  match body s with
  | .ok (s', a) => (.ok a, s')
  | .error e => (.error e, s)

end database

namespace rbac

/-- rbac.Role (the policy engine is an out-of-scope collaborator). -/
structure Role where
  name : String
  displayName : String
deriving DecidableEq

/-- Modelled from the spec: rbac.RoleByName, used by convertUser to
render role names; the policy engine itself is out of scope (spec
section 1). -/
def RoleByName (n : String) : Role := ⟨n, n⟩

end rbac

namespace httpapi

/-- Caller-observable responses.  `api` is httpapi.Write of a
codersdk.Response (status plus message; the diagnostic detail field is
not modelled), `apiGroup` is httpapi.Write of a codersdk.Group payload,
and `stdlibNotFound` is Go's `http.NotFound` — a plain-text
"404 page not found" body, not a structured response. -/
inductive Response where
  | api (status : Nat) (message : String)
  | apiGroup (status : Nat) (body : codersdk.Group)
  | stdlibNotFound
deriving DecidableEq

/-- HTTP status code of a response. -/
def Response.status : Response → Nat
  | .api st _ => st
  | .apiGroup st _ => st
  | .stdlibNotFound => 404

/-- Modelled from the spec: httpapi.ResourceNotFound — the uniform 404
"resource not found or access denied" response, deliberately the same
for true absence and for authorization denial (spec sections 4.5
and 7). -/
def ResourceNotFound : Response :=
  .api 404 "Resource not found or access to this resource is denied"

end httpapi

/-- chi route parameters: an append-only list of (key, value) pairs.
Lookup scans from the most recently added binding (chi's RouteParams.Get
iterates from the end), so URLParams.Add overrides earlier bindings of
the same key. -/
abbrev RouteParams := List (String × StrVal)

def RouteParams.get : RouteParams → String → Option StrVal
  | [], _ => none
  | (k, v) :: rest, key =>
    match RouteParams.get rest key with
    | some r => some r
    | none => if k == key then some v else none

def RouteParams.add (ps : RouteParams) (k : String) (v : StrVal) : RouteParams :=
  ps ++ [(k, v)]

namespace httpmw

/-- Outcome of one middleware stage: either it wrote a response and the
chain stops, or it passes the resolved object(s) to the next stage. -/
inductive MwResult (α : Type) where
  | respond (r : httpapi.Response)
  | pass (a : α)
deriving DecidableEq

/-- httpmw.OrganizationMember: the object stored in the request context
by ExtractOrganizationMemberParam — the database membership row plus
(only) the user's username and avatar URL. -/
structure OrganizationMember where
  organizationMember : database.OrganizationMember
  username : String
  avatarURL : String
deriving DecidableEq

/-- Modelled from the spec: httpmw.parseUUID (spec section 4.1) — the
specialized parameter extractor that validates a UUID-form value,
writing a client error on absence or malformed input. -/
def parseUUID (ps : RouteParams) (name : String) : MwResult Uuid :=
  match ps.get name with
  | none => .respond (.api 400 (name ++ " must be provided"))
  | some v =>
    match uuidParse v with
    | some u => .pass u
    | none => .respond (.api 400 ("Invalid UUID " ++ name))

/-- The lookup dispatch of ExtractOrganizationParam: the reserved alias
"default" and the nil-UUID string both resolve via
get-default-organization; otherwise a uuid-form value resolves by id
and anything else by name.  Also reports which query was attempted. -/
def resolveOrganization (s : database.Store) (a : StrVal) :
    Except database.DbError database.Organization × database.Query :=
  if a = StrVal.lit codersdk.DefaultOrganization ∨ a = StrVal.uuidStr Uuid.nil then
    (database.GetDefaultOrganization s, .qDefaultOrg)
  else
    match a with
    | .uuidStr u => (database.GetOrganizationByID s u, .qOrgByID u)
    | .lit n => (database.GetOrganizationByName s n, .qOrgByName n)

/-- The error-handling tail of ExtractOrganizationParam: "no rows" is
the uniform resource-not-found, any other failure a 500, success
stores the organization in the request context. -/
def orgResult (res : Except database.DbError database.Organization) :
    MwResult database.Organization :=
  match res with
  | .error .noRows => .respond httpapi.ResourceNotFound
  | .error _ => .respond (.api 500 "Internal error fetching organization.")
  | .ok o => .pass o

/-- httpmw.ExtractOrganizationParam: resolve the raw "organization"
route parameter (`none` models the empty string chi returns when the
parameter is absent).  The second component records the store queries
the resolution attempted. -/
def ExtractOrganizationParam (s : database.Store) (arg : Option StrVal) :
    MwResult database.Organization × List database.Query :=
  match arg with
  | none => (.respond (.api 400 "\"organization\" must be provided."), [])
  | some a => (orgResult (resolveOrganization s a).1, [(resolveOrganization s a).2])

/-- The error-handling tail of ExtractGroupParam: "no rows" is the
uniform resource-not-found, any other failure a 500; on success the
group is stored and its owning organization id is republished into the
route parameters under "organization". -/
def groupResult (ps : RouteParams) (res : Except database.DbError database.Group) :
    MwResult (database.Group × RouteParams) :=
  match res with
  | .error .noRows => .respond httpapi.ResourceNotFound
  | .error _ => .respond (.api 500 "Internal error fetching group.")
  | .ok g => .pass (g, ps.add "organization" (.uuidStr g.organizationID))

/-- httpmw.ExtractGroupParam: parse the "group" route parameter as a
UUID, resolve the group, and on success republish the group's owning
organization id into the route parameters under "organization". -/
def ExtractGroupParam (s : database.Store) (ps : RouteParams) :
    MwResult (database.Group × RouteParams) :=
  match parseUUID ps "group" with
  | .respond r => .respond r
  | .pass groupID => groupResult ps (database.GetGroupByID s groupID)

/-- The middleware chain of a group-scoped route: the Group Resolver
followed by the Organization Resolver, the latter reading the
"organization" parameter the former republished. -/
def ExtractGroupThenOrganization (s : database.Store) (ps : RouteParams) :
    MwResult (database.Group × database.Organization) :=
  match ExtractGroupParam s ps with
  | .respond r => .respond r
  | .pass (g, ps') =>
    match (ExtractOrganizationParam s (ps'.get "organization")).1 with
    | .respond r => .respond r
    | .pass o => .pass (g, o)

/-- Modelled from the spec: httpmw.extractUserContext (spec section 4.4
step 1) — resolve the user identity parameter under an elevated,
permission-bypassing context; by id for uuid-form values, by username
otherwise.  The resolved full User is returned to the middleware only
and is never placed in the request context. -/
def extractUserContext (s : database.Store) (userArg : StrVal) :
    MwResult database.User :=
  match userArg with
  | .uuidStr uid =>
    if s.faults.contains (.qUserByID uid) then
      .respond (.api 500 "Internal error fetching user.")
    else
      match s.users.find? (fun u => u.id == uid) with
      | some u => .pass u
      | none => .respond httpapi.ResourceNotFound
  | .lit name =>
    if s.faults.contains (.qUserByUsername name) then
      .respond (.api 500 "Internal error fetching user.")
    else
      match s.users.find? (fun u => u.username == name) with
      | some u => .pass u
      | none => .respond httpapi.ResourceNotFound

/-- httpmw.ExtractOrganizationMemberParam: resolve the user under the
elevated context, query the membership row for (organization, user)
expecting exactly one match, and store the membership row combined with
only the user's username and avatar URL. -/
def ExtractOrganizationMemberParam (s : database.Store)
    (org : database.Organization) (userArg : StrVal) :
    MwResult OrganizationMember :=
  match extractUserContext s userArg with
  | .respond r => .respond r
  | .pass user =>
    match database.ExpectOne (database.OrganizationMembers s org.id user.id) with
    | .error .noRows => .respond httpapi.ResourceNotFound
    | .error _ => .respond (.api 500 "Internal error fetching organization member.")
    | .ok row => .pass ⟨row, user.username, user.avatarURL⟩

end httpmw

namespace coderd

/-- convertRole. -/
def convertRole (role : rbac.Role) : codersdk.Role :=
  { displayName := role.displayName, name := role.name }

/-- convertUser: project a database user plus a supplied organization-id
list into the sdk shape. -/
def convertUser (user : database.User) (organizationIDs : List Uuid) :
    codersdk.User :=
  { id := user.id
    email := user.email
    createdAt := user.createdAt
    lastSeenAt := user.lastSeenAt
    username := user.username
    status := user.status
    organizationIDs := organizationIDs
    roles := user.rbacRoles.map (fun n => convertRole (rbac.RoleByName n))
    avatarURL := user.avatarURL }

/-- convertUsers: convert each user, attaching the organization-id list
found for it in the map (Go map lookup of a missing key yields nil). -/
def convertUsers (users : List database.User)
    (organizationIDsByUserID : List (Uuid × List Uuid)) : List codersdk.User :=
  users.map (fun u => convertUser u ((organizationIDsByUserID.lookup u.id).getD []))

/-- convertGroup: every member is pretended to belong only to the
group's organization (the "it's ridiculous to query all the orgs"
shortcut in the source). -/
def convertGroup (g : database.Group) (users : List database.User) :
    codersdk.Group :=
  let orgs := users.map (fun u => (u.id, [g.organizationID]))
  { id := g.id
    name := g.name
    organizationID := g.organizationID
    members := convertUsers users orgs }

/-- Outcome of a state-changing handler: the response written, the
store after the request, and whether the atomic section was entered. -/
structure PatchOutcome where
  resp : httpapi.Response
  store : database.Store
  txEntered : Bool
deriving DecidableEq

/-- The per-id validation loop of patchGroup: each add/remove id must
parse as a UUID (400 otherwise) and must denote an organization member
of the group's organization (412 on "no rows", 500 on any other
failure); the first failure wins. -/
def checkMembers (s : database.Store) (orgID : Uuid) :
    List StrVal → Option httpapi.Response
  | [] => none
  | id :: rest =>
    match uuidParse id with
    | none => some (.api 400 "ID must be a valid user UUID.")
    | some u =>
      match database.GetOrganizationMemberByUserID s orgID u with
      | .error .noRows => some (.api 412 "User must be a member of organization")
      | .error _ => some (.api 500 "Internal error fetching organization member.")
      | .ok _ => checkMembers s orgID rest

/-- The body of patchGroup's transaction: rename if requested, insert
each added member, delete each removed member, in that order.  The ids
were validated as UUIDs before the transaction, so MustParse cannot
panic; the model defaults an (unreachable) unparsable id to nil. -/
def insertGroupMembers (s : database.Store) (groupID : Uuid) :
    List StrVal → Except database.DbError database.Store
  | [] => .ok s
  | id :: rest =>
    match database.InsertGroupMember s groupID ((uuidParse id).getD Uuid.nil) with
    | .error e => .error e
    | .ok s' => insertGroupMembers s' groupID rest

def deleteGroupMembers (s : database.Store) :
    List StrVal → Except database.DbError database.Store
  | [] => .ok s
  | id :: rest =>
    match database.DeleteGroupMember s ((uuidParse id).getD Uuid.nil) with
    | .error e => .error e
    | .ok s' => deleteGroupMembers s' rest

def patchGroupTx (g : database.Group) (req : codersdk.PatchGroupRequest)
    (s : database.Store) : Except database.DbError (database.Store × database.Group) := do
  let (s, g) ←
    if req.name ≠ "" then database.UpdateGroupByID s g.id req.name
    else .ok (s, g)
  let s ← insertGroupMembers s g.id req.addUsers
  let s ← deleteGroupMembers s req.removeUsers
  .ok (s, g)

/-- The commit phase of patchGroup: run the atomic section, map a
uniqueness violation and a missing row to 412 precondition-failed and
anything else to 500, and on success re-fetch the roster (500 if that
read fails) and answer 200 with the converted group. -/
def patchGroupCommit (s : database.Store) (g : database.Group)
    (req : codersdk.PatchGroupRequest) : PatchOutcome :=
  match database.InTx s (patchGroupTx g req) with
  | (.error .uniqueViolation, s') =>
    ⟨.api 412 "Cannot add the same user to a group twice!", s', true⟩
  | (.error .noRows, s') =>
    ⟨.api 412 "Failed to add or remove non-existent group member", s', true⟩
  | (.error .other, s') => ⟨.api 500 "Internal error", s', true⟩
  | (.ok g', s') =>
    match database.GetGroupMembers s' g'.id with
    | .error _ => ⟨.api 500 "Internal error", s', true⟩
    | .ok users => ⟨.apiGroup 200 (convertGroup g' users), s', true⟩

/-- patchGroup: authorization gate (Go's http.NotFound on denial), the
reserved-name rejection, the per-id membership validation, the rename
collision pre-check (a 409 only when the lookup succeeds; any lookup
error falls through), then the atomic section.  `authorize` is the
outcome of the external Authorization Gate for (update, group).  The
request is taken already parsed; a body-read failure responds 400
before any of this and is not modelled. -/
def patchGroup (s : database.Store) (g : database.Group) (authorize : Bool)
    (req : codersdk.PatchGroupRequest) : PatchOutcome :=
  if !authorize then ⟨.stdlibNotFound, s, false⟩
  else if req.name ≠ "" ∧ req.name = database.AllUsersGroup then
    ⟨.api 400 (database.AllUsersGroup ++ " is a reserved group name!"), s, false⟩
  else
    match checkMembers s g.organizationID (req.addUsers ++ req.removeUsers) with
    | some r => ⟨r, s, false⟩
    | none =>
      if req.name ≠ "" then
        match database.GetGroupByOrgAndName s g.organizationID req.name with
        | .ok _ => ⟨.api 409 "A group with that name already exists.", s, false⟩
        | .error _ => patchGroupCommit s g req
      else patchGroupCommit s g req

/-- deleteGroup: authorization gate (httpapi.ResourceNotFound on
denial), the reserved-group rejection, then the deletion. -/
def deleteGroup (s : database.Store) (g : database.Group) (authorize : Bool) :
    httpapi.Response × database.Store :=
  if !authorize then (httpapi.ResourceNotFound, s)
  else if g.name = database.AllUsersGroup then
    (.api 400 (database.AllUsersGroup ++ " is a reserved group and cannot be deleted!"), s)
  else
    match database.DeleteGroupByID s g.id with
    | .ok s' => (.api 200 "Successfully deleted group!", s')
    | .error _ => (.api 500 "Internal error", s)

/-- group (the single-group read handler): authorization gate
(httpapi.ResourceNotFound on denial), then the roster read — a "no
rows" roster read proceeds with an empty roster, any other failure
is a 500. -/
def group (s : database.Store) (g : database.Group) (authorize : Bool) :
    httpapi.Response :=
  if !authorize then httpapi.ResourceNotFound
  else
    match database.GetGroupMembers s g.id with
    | .ok users => .apiGroup 200 (convertGroup g users)
    | .error .noRows => .apiGroup 200 (convertGroup g [])
    | .error _ => .api 500 "Internal error"

end coderd

/-- Agreement of two user records on exactly the whitelisted fields the
Organization Member Resolver may expose: id (the lookup key), username
and avatar URL. -/
def visAgree (u v : database.User) : Prop :=
  u.id = v.id ∧ u.username = v.username ∧ u.avatarURL = v.avatarURL

/-! ### Fixtures used by the witness theorems -/

def org1 : database.Organization := ⟨1, "acme", true⟩

def group2 : database.Group := ⟨2, "infra", 1⟩

def user3 : database.User := ⟨3, "bob@acme.test", "bob", "avatar-bob", "active", [], 0, 0⟩

/-- The same user as `user3` on the whitelisted fields (id, username,
avatar URL) but different on every other field. -/
def user3x : database.User := ⟨3, "robert@other.test", "bob", "avatar-bob", "dormant", ["auditor"], 7, 9⟩

def mem3 : database.OrganizationMember := ⟨3, 1, []⟩

def wStore : database.Store := ⟨[org1], [group2], [mem3], [user3], [], []⟩

def w3Store : database.Store := ⟨[org1], [group2], [mem3], [user3], [(2, 3)], []⟩

def wFault : database.Store :=
  ⟨[org1], [group2], [mem3], [user3], [], [.qGroupByOrgAndName 1 "platform"]⟩

def wCol : database.Store :=
  ⟨[org1], [group2, ⟨7, "platform", 1⟩], [mem3], [user3], [], []⟩

def groupAll : database.Group := ⟨4, database.AllUsersGroup, 1⟩

def req3 : codersdk.PatchGroupRequest := ⟨"", [.uuidStr 3], []⟩

def req4 : codersdk.PatchGroupRequest := ⟨"", [.uuidStr 9], []⟩

def req6 : codersdk.PatchGroupRequest := ⟨database.AllUsersGroup, [], []⟩

def req10 : codersdk.PatchGroupRequest := ⟨"platform", [], []⟩

/-! ### Helper lemmas -/

theorem RouteParams.get_append_self (ps : RouteParams) (k : String) (v : StrVal) :
    RouteParams.get (ps ++ [(k, v)]) k = some v := by
  induction ps with
  | nil => simp [RouteParams.get]
  | cons p rest ih =>
    obtain ⟨a, b⟩ := p
    rw [List.cons_append]
    simp only [RouteParams.get]
    rw [ih]

theorem RouteParams.get_add_self (ps : RouteParams) (k : String) (v : StrVal) :
    RouteParams.get (RouteParams.add ps k v) k = some v :=
  RouteParams.get_append_self ps k v

theorem getOrganizationByID_ok_id {s : database.Store} {i : Uuid}
    {o : database.Organization}
    (h : database.GetOrganizationByID s i = .ok o) : o.id = i := by
  unfold database.GetOrganizationByID at h
  split at h
  · simp at h
  · cases hf : s.orgs.find? (fun o => o.id == i) with
    | none => rw [hf] at h; simp at h
    | some o0 =>
      rw [hf] at h
      simp only [Except.ok.injEq] at h
      subst h
      have := List.find?_some hf
      simpa [beq_iff_eq] using this

theorem resolveOrganization_uuid (s : database.Store) {w : Uuid}
    (hw : w ≠ Uuid.nil) :
    httpmw.resolveOrganization s (.uuidStr w) =
      (database.GetOrganizationByID s w, .qOrgByID w) := by
  unfold httpmw.resolveOrganization
  rw [if_neg (by simp [hw])]

theorem extractOrganizationParam_uuid {s : database.Store} {w : Uuid}
    (hw : w ≠ Uuid.nil) {o : database.Organization}
    (h : (httpmw.ExtractOrganizationParam s (some (.uuidStr w))).1 = .pass o) :
    database.GetOrganizationByID s w = .ok o := by
  simp only [httpmw.ExtractOrganizationParam, resolveOrganization_uuid s hw] at h
  cases hres : database.GetOrganizationByID s w with
  | ok o0 => simp only [hres, httpmw.orgResult] at h; simpa using h
  | error e => simp only [hres, httpmw.orgResult] at h; cases e <;> simp at h

theorem extractGroupParam_inject {s : database.Store} {ps : RouteParams}
    {g : database.Group} {ps' : RouteParams}
    (h : httpmw.ExtractGroupParam s ps = .pass (g, ps')) :
    ps' = ps.add "organization" (.uuidStr g.organizationID) := by
  unfold httpmw.ExtractGroupParam at h
  cases hp : httpmw.parseUUID ps "group" with
  | respond r => simp only [hp] at h; simp at h
  | pass gid =>
    simp only [hp] at h
    cases hg : database.GetGroupByID s gid with
    | error e => simp only [hg, httpmw.groupResult] at h; cases e <;> simp at h
    | ok g0 =>
      simp only [hg, httpmw.groupResult, httpmw.MwResult.pass.injEq,
        Prod.mk.injEq] at h
      obtain ⟨hg0, hps⟩ := h
      subst hg0
      exact hps.symm

theorem lookup_const {gid : Uuid} :
    ∀ (m : List (Uuid × List Uuid)) (k : Uuid) (v : List Uuid),
      m.lookup k = some v → (∀ p ∈ m, p.2 = [gid]) → v = [gid] := by
  intro m
  induction m with
  | nil => intro k v h _; simp [List.lookup] at h
  | cons p rest ih =>
    intro k v h hall
    obtain ⟨a, b⟩ := p
    by_cases hk : k == a
    · simp only [List.lookup, hk, Option.some.injEq] at h
      have hb := hall (a, b) (List.mem_cons_self _ _)
      rw [← h]
      exact hb
    · simp only [List.lookup, hk] at h
      exact ih k v h (fun q hq => hall q (List.mem_cons_of_mem _ hq))

theorem lookup_map_self {gid : Uuid} (users : List database.User) :
    ∀ u ∈ users, ∃ v, (users.map (fun w => (w.id, [gid]))).lookup u.id = some v := by
  induction users with
  | nil => simp
  | cons w rest ih =>
    intro u hu
    rw [List.map_cons]
    by_cases hw : u.id == w.id
    · exact ⟨[gid], by simp [List.lookup, hw]⟩
    · rcases List.mem_cons.mp hu with rfl | hu
      · simp at hw
      · obtain ⟨v, hv⟩ := ih u hu
        refine ⟨v, ?_⟩
        simp only [List.lookup, hw]
        exact hv

/-! ### Claim theorems -/

/-- Claim C5: for an organization parameter equal to the reserved alias
"default" or to the all-zero UUID string, the Organization Resolver
attempts exactly the get-default-organization store operation (never a
by-id or by-name lookup), and whenever that operation yields the
default organization the resolver passes exactly that organization —
for every store, however many other organizations exist. -/
theorem c5_default_alias (s : database.Store) (a : StrVal)
    (h : a = StrVal.lit codersdk.DefaultOrganization ∨ a = StrVal.uuidStr Uuid.nil) :
    (httpmw.ExtractOrganizationParam s (some a)).2 = [database.Query.qDefaultOrg] ∧
    ∀ o, database.GetDefaultOrganization s = .ok o →
      (httpmw.ExtractOrganizationParam s (some a)).1 = .pass o := by
  have hres : httpmw.resolveOrganization s a =
      (database.GetDefaultOrganization s, .qDefaultOrg) := by
    unfold httpmw.resolveOrganization
    rw [if_pos h]
  constructor
  · simp [httpmw.ExtractOrganizationParam, hres]
  · intro o ho
    simp [httpmw.ExtractOrganizationParam, hres, ho, httpmw.orgResult]

/-- Witness for C5: in a one-organization store, both the alias and the
nil-UUID string resolve to the default organization via the
get-default-organization query alone. -/
theorem c5_default_alias_witness :
    (httpmw.ExtractOrganizationParam wStore (some (.lit "default"))).2 =
      [database.Query.qDefaultOrg] ∧
    (httpmw.ExtractOrganizationParam wStore (some (.lit "default"))).1 = .pass org1 ∧
    (httpmw.ExtractOrganizationParam wStore (some (.uuidStr Uuid.nil))).2 =
      [database.Query.qDefaultOrg] :=
  ⟨(c5_default_alias wStore _ (Or.inl rfl)).1,
   (c5_default_alias wStore _ (Or.inl rfl)).2 org1 (by decide),
   (c5_default_alias wStore _ (Or.inr rfl)).1⟩

/-- Claim C2: on group-resolver success the value republished into the
"organization" route parameter is exactly the group's owning
organization id, and a subsequently chained Organization Resolver
resolves an organization whose id is exactly that owner (the owning id
being a real identifier, not the reserved nil sentinel) — regardless of
anything the caller supplied. -/
theorem c2_group_org_injection :
    (∀ (s : database.Store) (ps : RouteParams) (g : database.Group)
        (ps' : RouteParams),
      httpmw.ExtractGroupParam s ps = .pass (g, ps') →
      ps'.get "organization" = some (StrVal.uuidStr g.organizationID)) ∧
    (∀ (s : database.Store) (ps : RouteParams) (g : database.Group)
        (o : database.Organization),
      httpmw.ExtractGroupThenOrganization s ps = .pass (g, o) →
      g.organizationID ≠ Uuid.nil → o.id = g.organizationID) := by
  constructor
  · intro s ps g ps' h
    rw [extractGroupParam_inject h]
    exact RouteParams.get_add_self ps "organization" (.uuidStr g.organizationID)
  · intro s ps g o h hnil
    unfold httpmw.ExtractGroupThenOrganization at h
    cases hgp : httpmw.ExtractGroupParam s ps with
    | respond r => simp only [hgp] at h; simp at h
    | pass go =>
      obtain ⟨g0, ps0⟩ := go
      simp only [hgp] at h
      cases hop : (httpmw.ExtractOrganizationParam s (ps0.get "organization")).1 with
      | respond r => simp only [hop] at h; simp at h
      | pass o0 =>
        simp only [hop, httpmw.MwResult.pass.injEq, Prod.mk.injEq] at h
        obtain ⟨hg, ho⟩ := h
        subst hg
        subst ho
        have hget : ps0.get "organization" =
            some (StrVal.uuidStr g0.organizationID) := by
          rw [extractGroupParam_inject hgp]
          exact RouteParams.get_add_self ps "organization" (.uuidStr g0.organizationID)
        rw [hget] at hop
        exact getOrganizationByID_ok_id (extractOrganizationParam_uuid hnil hop)

/-- Witness for C2: resolving group 2 injects its owner (organization 1)
into the route parameters, and the chained resolver yields exactly
organization 1. -/
theorem c2_group_org_injection_witness :
    RouteParams.get [("group", StrVal.uuidStr 2), ("organization", StrVal.uuidStr 1)]
        "organization" = some (StrVal.uuidStr group2.organizationID) ∧
    org1.id = group2.organizationID :=
  ⟨c2_group_org_injection.1 wStore [("group", .uuidStr 2)] group2
      [("group", StrVal.uuidStr 2), ("organization", StrVal.uuidStr 1)] (by decide),
   c2_group_org_injection.2 wStore [("group", .uuidStr 2)] group2 org1
      (by decide) (by decide)⟩

/-- Claim C9: every member listed in a convertGroup response carries an
organization-id list equal to the one-element list holding the group's
owning organization, whatever the user's real memberships are. -/
theorem c9_member_org_ids (g : database.Group) (users : List database.User)
    (cu : codersdk.User) (hcu : cu ∈ (coderd.convertGroup g users).members) :
    cu.organizationIDs = [g.organizationID] := by
  unfold coderd.convertGroup at hcu
  simp only [coderd.convertUsers, List.mem_map] at hcu
  obtain ⟨u, hu, rfl⟩ := hcu
  simp only [coderd.convertUser]
  obtain ⟨v, hv⟩ := lookup_map_self users u hu
  rw [hv, Option.getD_some]
  refine lookup_const _ _ _ hv ?_
  intro p hp
  obtain ⟨w, _, rfl⟩ := List.mem_map.mp hp
  rfl

/-- Witness for C9: the sole member of group 2's response carries
exactly the organization list [1]. -/
theorem c9_member_org_ids_witness :
    (coderd.convertUser user3 [1]).organizationIDs = [group2.organizationID] :=
  c9_member_org_ids group2 [user3] _ (by decide)

/-- Claim C6: a rename to the reserved "all users" group name is
rejected with the 400 client error, before any state change and with
the atomic section never entered, even when the caller holds full
update permission on the group. -/
theorem c6_reserved_rename (s : database.Store) (g : database.Group)
    (req : codersdk.PatchGroupRequest) (h : req.name = database.AllUsersGroup) :
    coderd.patchGroup s g true req =
      ⟨.api 400 (database.AllUsersGroup ++ " is a reserved group name!"), s, false⟩ := by
  have hne : req.name ≠ "" := by rw [h]; decide
  unfold coderd.patchGroup
  rw [if_neg (by decide : ¬(!true) = true)]
  rw [if_pos ⟨hne, h⟩]

/-- Witness for C6: a fully authorized rename of group 2 to the
reserved name answers 400 and leaves the store untouched. -/
theorem c6_reserved_rename_witness :
    coderd.patchGroup wStore group2 true req6 =
      ⟨.api 400 (database.AllUsersGroup ++ " is a reserved group name!"),
        wStore, false⟩ :=
  c6_reserved_rename wStore group2 req6 (by decide)

theorem patchGroupCommit_412_store (s : database.Store) (g : database.Group)
    (req : codersdk.PatchGroupRequest)
    (h : (coderd.patchGroupCommit s g req).resp.status = 412) :
    (coderd.patchGroupCommit s g req).store = s := by
  unfold coderd.patchGroupCommit database.InTx at h ⊢
  cases htx : coderd.patchGroupTx g req s with
  | error e =>
    simp only [htx] at h ⊢
    cases e <;> rfl
  | ok p =>
    obtain ⟨s', g'⟩ := p
    simp only [htx] at h ⊢
    cases hm : database.GetGroupMembers s' g'.id with
    | error e =>
      simp only [hm, httpapi.Response.status] at h
      exact absurd h (by decide)
    | ok users =>
      simp only [hm, httpapi.Response.status] at h
      exact absurd h (by decide)

/-- Claim C3: whenever a group-update request is answered with the 412
precondition-failed status — in particular when the atomic section
fails on a duplicate-membership uniqueness violation or on a
missing-row deletion — the store after the request is identical to the
store before it: the group's name and member roster are unchanged and
no partial rename, insert or delete survives. -/
theorem c3_failed_mutation_rollback (s : database.Store) (g : database.Group)
    (authorize : Bool) (req : codersdk.PatchGroupRequest)
    (h : (coderd.patchGroup s g authorize req).resp.status = 412) :
    (coderd.patchGroup s g authorize req).store = s := by
  unfold coderd.patchGroup at h ⊢
  cases authorize with
  | false => simp [httpapi.Response.status] at h
  | true =>
    rw [if_neg (by decide : ¬(!true) = true)] at h ⊢
    by_cases hres : req.name ≠ "" ∧ req.name = database.AllUsersGroup
    · rw [if_pos hres] at h
      simp [httpapi.Response.status] at h
    · rw [if_neg hres] at h ⊢
      cases hcm : coderd.checkMembers s g.organizationID (req.addUsers ++ req.removeUsers) with
      | some r => simp only [hcm]
      | none =>
        simp only [hcm] at h ⊢
        by_cases hn : req.name ≠ ""
        · rw [if_pos hn] at h ⊢
          cases hcol : database.GetGroupByOrgAndName s g.organizationID req.name with
          | ok g0 =>
            simp only [hcol, httpapi.Response.status] at h
            exact absurd h (by decide)
          | error e =>
            simp only [hcol] at h ⊢
            exact patchGroupCommit_412_store s g req h
        · rw [if_neg hn] at h ⊢
          exact patchGroupCommit_412_store s g req h

/-- Witness for C3: adding an already-present member fails the atomic
section with a uniqueness violation, answers 412 and leaves the store
bit-for-bit unchanged. -/
theorem c3_failed_mutation_rollback_witness :
    (coderd.patchGroup w3Store group2 true req3).resp.status = 412 ∧
    (coderd.patchGroup w3Store group2 true req3).store = w3Store :=
  ⟨by decide, c3_failed_mutation_rollback w3Store group2 true req3 (by decide)⟩

theorem getOrgMember_error_noRows {s : database.Store} (hf : s.faults = [])
    {orgID userID : Uuid} {e : database.DbError}
    (h : database.GetOrganizationMemberByUserID s orgID userID = .error e) :
    e = .noRows := by
  unfold database.GetOrganizationMemberByUserID at h
  rw [hf] at h
  rw [if_neg (by simp)] at h
  cases hfind : s.members.find?
      (fun m => m.organizationID == orgID && m.userID == userID) with
  | some m => rw [hfind] at h; simp at h
  | none =>
    rw [hfind] at h
    injection h with h
    exact h.symm

theorem checkMembers_nonmember (s : database.Store) (orgID : Uuid)
    (hf : s.faults = []) :
    ∀ (ids : List StrVal),
      (∀ v ∈ ids, ∃ u, uuidParse v = some u) →
      (∃ v ∈ ids, ∃ u, uuidParse v = some u ∧
        database.GetOrganizationMemberByUserID s orgID u = .error .noRows) →
      coderd.checkMembers s orgID ids =
        some (.api 412 "User must be a member of organization") := by
  intro ids
  induction ids with
  | nil =>
    rintro _ ⟨v, hv, _⟩
    exact absurd hv (List.not_mem_nil v)
  | cons v rest ih =>
    rintro hparse ⟨w, hw, u, hu, hnm⟩
    obtain ⟨uv, huv⟩ := hparse v (List.mem_cons_self _ _)
    simp only [coderd.checkMembers, huv]
    cases hmem : database.GetOrganizationMemberByUserID s orgID uv with
    | error e =>
      have he := getOrgMember_error_noRows hf hmem
      subst he
      rfl
    | ok m =>
      rcases List.mem_cons.mp hw with rfl | hwrest
      · rw [huv] at hu
        injection hu with hu
        subst hu
        rw [hmem] at hnm
        exact absurd hnm (by simp)
      · exact ih (fun x hx => hparse x (List.mem_cons_of_mem _ hx))
          ⟨w, hwrest, u, hu, hnm⟩

/-- Claim C4: a group-update request whose add/remove ids all parse but
contain some id that is not an organization member of the group's
organization is rejected with 412 before the atomic transaction is
entered, leaving the store (and so the member roster) unchanged.  The
store hypothesis `faults = []` says the membership queries themselves
do not fail internally. -/
theorem c4_nonmember_precondition (s : database.Store) (g : database.Group)
    (req : codersdk.PatchGroupRequest)
    (hf : s.faults = [])
    (hparse : ∀ v ∈ req.addUsers ++ req.removeUsers, ∃ u, uuidParse v = some u)
    (hname : req.name ≠ database.AllUsersGroup)
    (hnm : ∃ v ∈ req.addUsers ++ req.removeUsers, ∃ u, uuidParse v = some u ∧
      database.GetOrganizationMemberByUserID s g.organizationID u = .error .noRows) :
    (coderd.patchGroup s g true req).resp.status = 412 ∧
    (coderd.patchGroup s g true req).txEntered = false ∧
    (coderd.patchGroup s g true req).store = s := by
  have hcm := checkMembers_nonmember s g.organizationID hf _ hparse hnm
  unfold coderd.patchGroup
  rw [if_neg (by decide : ¬(!true) = true)]
  rw [if_neg (fun hc => hname hc.2)]
  simp [hcm, httpapi.Response.status]

/-- Witness for C4: adding user 9, who is no member of organization 1,
to group 2 answers 412 without entering the transaction or changing
the store. -/
theorem c4_nonmember_precondition_witness :
    (coderd.patchGroup wStore group2 true req4).resp.status = 412 ∧
    (coderd.patchGroup wStore group2 true req4).txEntered = false ∧
    (coderd.patchGroup wStore group2 true req4).store = wStore :=
  c4_nonmember_precondition wStore group2 req4 rfl
    (by
      intro v hv
      simp only [req4] at hv
      simp at hv
      subst hv
      exact ⟨9, rfl⟩)
    (by decide)
    ⟨.uuidStr 9, by decide, 9, rfl, by decide⟩

theorem patchGroupCommit_txEntered (s : database.Store) (g : database.Group)
    (req : codersdk.PatchGroupRequest) :
    (coderd.patchGroupCommit s g req).txEntered = true := by
  unfold coderd.patchGroupCommit database.InTx
  cases htx : coderd.patchGroupTx g req s with
  | error e => simp only [htx]; cases e <;> rfl
  | ok p =>
    obtain ⟨s', g'⟩ := p
    simp only [htx]
    cases hm : database.GetGroupMembers s' g'.id with
    | error e => simp only [hm]
    | ok users => simp only [hm]

theorem patchGroupCommit_no409 (s : database.Store) (g : database.Group)
    (req : codersdk.PatchGroupRequest) :
    (coderd.patchGroupCommit s g req).resp.status ≠ 409 := by
  unfold coderd.patchGroupCommit database.InTx
  cases htx : coderd.patchGroupTx g req s with
  | error e => cases e <;> simp [htx, httpapi.Response.status]
  | ok p =>
    obtain ⟨s', g'⟩ := p
    cases hm : database.GetGroupMembers s' g'.id with
    | error e => simp [htx, hm, httpapi.Response.status]
    | ok users => simp [htx, hm, httpapi.Response.status]

theorem checkMembers_status (s : database.Store) (orgID : Uuid) :
    ∀ (ids : List StrVal) (r : httpapi.Response),
      coderd.checkMembers s orgID ids = some r → r.status ≠ 409 := by
  intro ids
  induction ids with
  | nil => intro r h; simp [coderd.checkMembers] at h
  | cons v rest ih =>
    intro r h
    simp only [coderd.checkMembers] at h
    cases hp : uuidParse v with
    | none =>
      simp only [hp, Option.some.injEq] at h
      subst h
      decide
    | some u =>
      simp only [hp] at h
      cases hm : database.GetOrganizationMemberByUserID s orgID u with
      | error e =>
        cases e with
        | noRows =>
          simp only [hm, Option.some.injEq] at h
          subst h
          decide
        | uniqueViolation =>
          simp only [hm, Option.some.injEq] at h
          subst h
          decide
        | other =>
          simp only [hm, Option.some.injEq] at h
          subst h
          decide
      | ok m =>
        simp only [hm] at h
        exact ih r h

/-- Claim C10: in the rename pre-check of the group-update handler, a
failing name-collision lookup — whatever its error, an internal storage
failure included — is silently ignored: the handler proceeds straight
into the atomic mutation instead of answering 500; and conversely the
409 conflict response arises only from a successful lookup of an
existing group with the target name. -/
theorem c10_collision_precheck :
    (∀ (s : database.Store) (g : database.Group) (req : codersdk.PatchGroupRequest)
        (e : database.DbError),
      req.name ≠ "" → req.name ≠ database.AllUsersGroup →
      coderd.checkMembers s g.organizationID (req.addUsers ++ req.removeUsers) = none →
      database.GetGroupByOrgAndName s g.organizationID req.name = .error e →
      coderd.patchGroup s g true req = coderd.patchGroupCommit s g req ∧
      (coderd.patchGroup s g true req).txEntered = true) ∧
    (∀ (s : database.Store) (g : database.Group) (authorize : Bool)
        (req : codersdk.PatchGroupRequest),
      (coderd.patchGroup s g authorize req).resp.status = 409 →
      ∃ g', database.GetGroupByOrgAndName s g.organizationID req.name = .ok g') := by
  constructor
  · intro s g req e hn hres hcm hcol
    have heq : coderd.patchGroup s g true req = coderd.patchGroupCommit s g req := by
      unfold coderd.patchGroup
      rw [if_neg (by decide : ¬(!true) = true)]
      rw [if_neg (fun hc => hres hc.2)]
      simp only [hcm]
      rw [if_pos hn]
      simp only [hcol]
    exact ⟨heq, by rw [heq]; exact patchGroupCommit_txEntered s g req⟩
  · intro s g authorize req h
    unfold coderd.patchGroup at h
    cases authorize with
    | false => simp [httpapi.Response.status] at h
    | true =>
      rw [if_neg (by decide : ¬(!true) = true)] at h
      by_cases hres : req.name ≠ "" ∧ req.name = database.AllUsersGroup
      · rw [if_pos hres] at h
        simp [httpapi.Response.status] at h
      · rw [if_neg hres] at h
        cases hcm : coderd.checkMembers s g.organizationID
            (req.addUsers ++ req.removeUsers) with
        | some r =>
          simp only [hcm] at h
          exact absurd h (checkMembers_status s g.organizationID _ r hcm)
        | none =>
          simp only [hcm] at h
          by_cases hn : req.name ≠ ""
          · rw [if_pos hn] at h
            cases hcol : database.GetGroupByOrgAndName s g.organizationID req.name with
            | ok g0 => exact ⟨g0, rfl⟩
            | error e =>
              simp only [hcol] at h
              exact absurd h (patchGroupCommit_no409 s g req)
          · rw [if_neg hn] at h
            exact absurd h (patchGroupCommit_no409 s g req)

/-- Witness for C10: with the name-collision lookup failing internally
the handler still enters the atomic section, and in a store where the
target name exists the 409 arises from the successful lookup. -/
theorem c10_collision_precheck_witness :
    (coderd.patchGroup wFault group2 true req10 =
        coderd.patchGroupCommit wFault group2 req10 ∧
      (coderd.patchGroup wFault group2 true req10).txEntered = true) ∧
    ∃ g', database.GetGroupByOrgAndName wCol group2.organizationID req10.name =
        .ok g' :=
  ⟨c10_collision_precheck.1 wFault group2 req10 .other (by decide) (by decide)
      (by decide) (by decide),
   c10_collision_precheck.2 wCol group2 true req10 (by decide)⟩

theorem find?_agree {α : Type} {R : α → α → Prop} {p q : α → Bool}
    (hpq : ∀ a b, R a b → p a = q b) :
    ∀ {l₁ l₂ : List α}, List.Forall₂ R l₁ l₂ →
      (l₁.find? p = none ∧ l₂.find? q = none) ∨
      (∃ a b, R a b ∧ l₁.find? p = some a ∧ l₂.find? q = some b) := by
  intro l₁ l₂ hl
  induction hl with
  | nil => exact Or.inl ⟨rfl, rfl⟩
  | @cons a b t₁ t₂ hab htail ih =>
    cases hp : p a with
    | true =>
      have hq : q b = true := by rw [← hpq a b hab]; exact hp
      exact Or.inr ⟨a, b, hab, List.find?_cons_of_pos _ hp,
        List.find?_cons_of_pos _ hq⟩
    | false =>
      have hq : q b = false := by rw [← hpq a b hab]; exact hp
      rw [List.find?_cons_of_neg _ (by simp [hp]),
        List.find?_cons_of_neg _ (by simp [hq])]
      exact ih

theorem extractUserContext_agree (s : database.Store)
    (users' : List database.User)
    (hrel : List.Forall₂ visAgree s.users users') (userArg : StrVal) :
    (∃ r, httpmw.extractUserContext s userArg = .respond r ∧
      httpmw.extractUserContext { s with users := users' } userArg = .respond r) ∨
    (∃ u v, visAgree u v ∧ httpmw.extractUserContext s userArg = .pass u ∧
      httpmw.extractUserContext { s with users := users' } userArg = .pass v) := by
  cases userArg with
  | uuidStr uid =>
    unfold httpmw.extractUserContext
    dsimp only
    by_cases hf : s.faults.contains (.qUserByID uid)
    · rw [if_pos hf, if_pos hf]
      exact Or.inl ⟨_, rfl, rfl⟩
    · rw [if_neg hf, if_neg hf]
      rcases find?_agree (R := visAgree) (p := fun u => u.id == uid)
          (q := fun u => u.id == uid)
          (fun a b hab => congrArg (fun x => x == uid) hab.1) hrel with
        ⟨h1, h2⟩ | ⟨x, y, hxy, h1, h2⟩
      · rw [h1, h2]
        exact Or.inl ⟨_, rfl, rfl⟩
      · rw [h1, h2]
        exact Or.inr ⟨x, y, hxy, rfl, rfl⟩
  | lit name =>
    unfold httpmw.extractUserContext
    dsimp only
    by_cases hf : s.faults.contains (.qUserByUsername name)
    · rw [if_pos hf, if_pos hf]
      exact Or.inl ⟨_, rfl, rfl⟩
    · rw [if_neg hf, if_neg hf]
      rcases find?_agree (R := visAgree) (p := fun u => u.username == name)
          (q := fun u => u.username == name)
          (fun a b hab => congrArg (fun x => x == name) hab.2.1) hrel with
        ⟨h1, h2⟩ | ⟨x, y, hxy, h1, h2⟩
      · rw [h1, h2]
        exact Or.inl ⟨_, rfl, rfl⟩
      · rw [h1, h2]
        exact Or.inr ⟨x, y, hxy, rfl, rfl⟩

/-- Claim C1: on success the Organization Member Resolver stores
exactly the membership row combined with the user's username and
avatar URL (these being the only fields of the stored type); and the
stored outcome is unchanged under any modification of the user records
that preserves just id, username and avatar URL — no other user field
(email, status, roles, timestamps) can influence, or leak through,
what reaches the request context. -/
theorem c1_restricted_member_view :
    (∀ (s : database.Store) (org : database.Organization) (userArg : StrVal)
        (u : database.User) (row : database.OrganizationMember),
      httpmw.extractUserContext s userArg = .pass u →
      database.ExpectOne (database.OrganizationMembers s org.id u.id) = .ok row →
      httpmw.ExtractOrganizationMemberParam s org userArg =
        .pass ⟨row, u.username, u.avatarURL⟩) ∧
    (∀ (s : database.Store) (users' : List database.User)
        (org : database.Organization) (userArg : StrVal),
      List.Forall₂ visAgree s.users users' →
      httpmw.ExtractOrganizationMemberParam s org userArg =
        httpmw.ExtractOrganizationMemberParam { s with users := users' }
          org userArg) := by
  constructor
  · intro s org userArg u row hu hrow
    unfold httpmw.ExtractOrganizationMemberParam
    simp only [hu, hrow]
  · intro s users' org userArg hrel
    unfold httpmw.ExtractOrganizationMemberParam
    rcases extractUserContext_agree s users' hrel userArg with
      ⟨r, h1, h2⟩ | ⟨u, v, huv, h1, h2⟩
    · rw [h1, h2]
    · rw [h1, h2]
      dsimp only
      obtain ⟨hid, hun, hav⟩ := huv
      have hmem : database.OrganizationMembers { s with users := users' }
          org.id v.id = database.OrganizationMembers s org.id u.id := by
        unfold database.OrganizationMembers
        dsimp only
        rw [hid]
      rw [hmem]
      cases he : database.ExpectOne (database.OrganizationMembers s org.id u.id) with
      | ok row => rw [hun, hav]
      | error e => cases e <;> rfl

/-- Witness for C1: resolving member 3 of organization 1 stores exactly
the membership row plus username and avatar, and replacing the user
record by one differing in email, status, roles and timestamps (but
agreeing on id, username, avatar URL) leaves the stored object
unchanged. -/
theorem c1_restricted_member_view_witness :
    httpmw.ExtractOrganizationMemberParam wStore org1 (.uuidStr 3) =
      .pass ⟨mem3, user3.username, user3.avatarURL⟩ ∧
    httpmw.ExtractOrganizationMemberParam wStore org1 (.uuidStr 3) =
      httpmw.ExtractOrganizationMemberParam { wStore with users := [user3x] }
        org1 (.uuidStr 3) :=
  ⟨c1_restricted_member_view.1 wStore org1 (.uuidStr 3) user3 mem3
      (by decide) (by decide),
   c1_restricted_member_view.2 wStore [user3x] org1 (.uuidStr 3)
      (List.Forall₂.cons ⟨rfl, rfl, rfl⟩ List.Forall₂.nil)⟩

/-- Counterexample for C7: the claim quantifies over read, update and
delete, but the update handler answers an authorization denial with
Go's generic stdlib not-found (plain-text body), which is not identical
to the resource-not-found response produced when the group does not
exist — only the 404 status coincides.  Concretely: resolving an
absent group yields the resource-not-found response, while a denied
update of existing group 2 yields the stdlib response, and the two
differ. -/
theorem c7_counterexample :
    httpmw.ExtractGroupParam wStore [("group", StrVal.uuidStr 5)] =
      .respond httpapi.ResourceNotFound ∧
    (coderd.patchGroup wStore group2 false req3).resp =
      httpapi.Response.stdlibNotFound ∧
    (coderd.patchGroup wStore group2 false req3).resp ≠
      httpapi.ResourceNotFound := by
  refine ⟨by decide, by decide, by decide⟩

/-- Claim C7 as amended: an authorization denial on an existing
resolved group yields, for the read and delete handlers, exactly the
resource-not-found response — identical to the response produced when
the group does not exist at all; the update handler's denial is also a
404, but via the generic stdlib not-found response, whose body differs
from the resource-not-found one. -/
theorem c7_denial_responses :
    (∀ (s : database.Store) (g : database.Group),
      coderd.group s g false = httpapi.ResourceNotFound) ∧
    (∀ (s : database.Store) (g : database.Group),
      (coderd.deleteGroup s g false).1 = httpapi.ResourceNotFound) ∧
    (∀ (s : database.Store) (ps : RouteParams) (gid : Uuid),
      ps.get "group" = some (.uuidStr gid) →
      database.GetGroupByID s gid = .error .noRows →
      httpmw.ExtractGroupParam s ps = .respond httpapi.ResourceNotFound) ∧
    (∀ (s : database.Store) (g : database.Group) (req : codersdk.PatchGroupRequest),
      (coderd.patchGroup s g false req).resp = .stdlibNotFound ∧
      httpapi.Response.status .stdlibNotFound = 404) := by
  refine ⟨fun s g => rfl, fun s g => rfl, ?_, fun s g req => ⟨rfl, rfl⟩⟩
  intro s ps gid hget hng
  have hp : httpmw.parseUUID ps "group" = .pass gid := by
    unfold httpmw.parseUUID
    rw [hget]
    rfl
  unfold httpmw.ExtractGroupParam
  simp only [hp, hng, httpmw.groupResult]

/-- Witness for C7 (amended): denied read and delete of group 2 match
the absent-group response exactly; the denied update is the stdlib
not-found. -/
theorem c7_denial_responses_witness :
    coderd.group wStore group2 false = httpapi.ResourceNotFound ∧
    (coderd.deleteGroup wStore group2 false).1 = httpapi.ResourceNotFound ∧
    httpmw.ExtractGroupParam wStore [("group", StrVal.uuidStr 5)] =
      .respond httpapi.ResourceNotFound ∧
    (coderd.patchGroup wStore group2 false req3).resp =
      httpapi.Response.stdlibNotFound :=
  ⟨c7_denial_responses.1 wStore group2,
   c7_denial_responses.2.1 wStore group2,
   c7_denial_responses.2.2.1 wStore [("group", StrVal.uuidStr 5)] 5
      (by decide) (by decide),
   (c7_denial_responses.2.2.2 wStore group2 req3).1⟩

/-- Counterexample for C8: the claim says a delete of the reserved
"all users" group answers the 400 client error independent of the
authorization outcome, but the handler checks authorization first — a
denied delete of the reserved group answers the 404 resource-not-found,
not 400. -/
theorem c8_counterexample :
    groupAll.name = database.AllUsersGroup ∧
    (coderd.deleteGroup wStore groupAll false).1 = httpapi.ResourceNotFound ∧
    (coderd.deleteGroup wStore groupAll false).1.status ≠ 400 := by
  refine ⟨rfl, by decide, by decide⟩

/-- Claim C8 as amended: no delete of the reserved "all users" group
ever deletes anything; when the caller passes authorization the
response is the 400 client error, and when authorization is denied it
is the 404 resource-not-found. -/
theorem c8_reserved_delete (s : database.Store) (g : database.Group)
    (authorize : Bool) (h : g.name = database.AllUsersGroup) :
    (coderd.deleteGroup s g authorize).2 = s ∧
    (coderd.deleteGroup s g authorize).1 =
      (if authorize then
        .api 400 (database.AllUsersGroup ++ " is a reserved group and cannot be deleted!")
      else httpapi.ResourceNotFound) := by
  cases authorize with
  | false => exact ⟨rfl, rfl⟩
  | true =>
    unfold coderd.deleteGroup
    rw [if_neg (by decide : ¬(!true) = true), if_pos h]
    exact ⟨rfl, rfl⟩

/-- Witness for C8 (amended): deleting the reserved group with full
permission answers 400 and leaves the store unchanged. -/
theorem c8_reserved_delete_witness :
    (coderd.deleteGroup wStore groupAll true).2 = wStore ∧
    (coderd.deleteGroup wStore groupAll true).1 =
      (if true then
        .api 400 (database.AllUsersGroup ++ " is a reserved group and cannot be deleted!")
      else httpapi.ResourceNotFound) :=
  c8_reserved_delete wStore groupAll true rfl
